import Mathlib

/-!
Verification of the Evennia `TickerHandler` subsystem
(`src/evennia/scripts/tickerhandler.py`) against its natural-language
specification.

The embedding is shallow and faithful to the Python source:

* Python dicts are association lists with replace-in-place insertion
  (`dinsert`) and first-occurrence lookup (`dlookup`).
* The 6-tuple store key `(obj, methodname, path, interval, idstring,
  persistent)` built by `TickerHandler._store_key` is the structure
  `StoreKey`; index 1 is the method name and index 3 the interval, exactly
  as in the source.
* Python truthiness is modelled explicitly where the source relies on it
  (`Ticker.truthy` for `if not self.tickers[interval]`, `intervalTruthy`
  for `if interval:`, `pyOfMethodname`/`PyVal` for the heterogeneous
  dict lookup `start_delays.get(store_key[1])` in `save`).
* Fallible Python code (raised `TypeError`/`ValueError`) is `Except PyExn`.
* Positional args and remaining user kwargs are opaque tokens (`Nat`);
  only the reserved kwargs `_start_delay`, `_callback`, `_obj` that the
  source reads and writes are modelled structurally.
-/

namespace TickerSpec

/-- A Python value as far as the heterogeneously keyed dict lookup in
`TickerHandler.save` is concerned: an int, a string, or `None`. -/
inductive PyVal
  | pint (i : Int)
  | pstr (s : String)
  | pnone
deriving DecidableEq

/-- The store key produced by `TickerHandler._store_key`: the tuple
`(obj, methodname, path, interval, idstring, persistent)`. Database
objects are identified by a `Nat` id. -/
structure StoreKey where
  obj : Option Nat
  methodname : Option String
  path : Option String
  interval : Int
  idstring : String
  persistent : Bool
deriving DecidableEq

/-- The value stored under the reserved `_callback` kwarg: either a
callable function object (identified by a token) or a method name. -/
inductive CallbackVal
  | fn (tok : Nat)
  | name (s : String)
deriving DecidableEq

/-- The `(args, kwargs)` payload of one subscription. `args` and `userKw`
are opaque tokens for the caller-supplied positional/keyword arguments;
the three reserved kwargs the source manipulates are explicit. An outer
`none` means the kwarg is absent; `some x` means present with value `x`
(where the inner `Option` allows the Python value `None`). -/
structure Payload where
  args : Nat
  userKw : Nat
  startDelay : Option (Option Int)
  cbField : Option (Option CallbackVal)
  objField : Option (Option Nat)
deriving DecidableEq

/-- A value of the `ticker_storage` dict. Normally a payload; after the
buggy `clear(interval)` the source stores the 6-tuple store key itself
as the value (`dict((store_key, store_key) ...)`). -/
inductive SVal
  | pay (p : Payload)
  | skey (k : StoreKey)
deriving DecidableEq

/-- A Python exception that escapes to the caller. -/
inductive PyExn
  | typeError
  | valueError
deriving DecidableEq

/-! ## Python dict model -/

/-- First-occurrence lookup in an association list (Python `d[k]` /
`d.get(k)`). -/
def dlookup {α β : Type} [DecidableEq α] : List (α × β) → α → Option β
  | [], _ => none
  | (k, v) :: t, a => if k = a then some v else dlookup t a

/-- Python `d[k] = v`: replace in place if the key is present, else
append. -/
def dinsert {α β : Type} [DecidableEq α] : List (α × β) → α → β → List (α × β)
  | [], a, b => [(a, b)]
  | (k, v) :: t, a, b => if k = a then (k, b) :: t else (k, v) :: dinsert t a b

/-- Python `d.pop(k, default)`: drop the entry for `k` if present. -/
def derase {α β : Type} [DecidableEq α] : List (α × β) → α → List (α × β)
  | [], _ => []
  | (k, v) :: t, a => if k = a then t else (k, v) :: derase t a

/-- Number of entries under key `a`. -/
def countKey {α β : Type} [DecidableEq α] (l : List (α × β)) (a : α) : Nat :=
  (l.filter (fun kv => decide (kv.1 = a))).length

/-- The keys of the association list are pairwise distinct (always true
for a real Python dict). -/
def NodupKeys {α β : Type} (l : List (α × β)) : Prop :=
  (l.map Prod.fst).Nodup

/-! ## Ticker -/

/-- One interval's `Ticker`: its interval, the `subscriptions` dict, the
running state of its `ExtendedLoopingCall` task, and the task's
`next_call_time()` (an external clock artifact, carried as data). -/
structure Ticker where
  interval : Int
  subscriptions : List (StoreKey × Payload)
  running : Bool
  nextCall : Int
deriving DecidableEq

/-- `Ticker.validate`: start/stop the task according to whether there are
subscribers. (The `start_delay` argument only shifts the first firing
time of the task and is not observable in this state model.) -/
def Ticker.validate (t : Ticker) : Ticker :=
  if t.running then
    if t.subscriptions.isEmpty then { t with running := false } else t
  else
    if t.subscriptions.isEmpty then t else { t with running := true }

/-- `Ticker.add`: `kwargs.pop("_start_delay", None)` then store
`(args, kwargs)` under the key and re-validate. -/
def Ticker.add (t : Ticker) (k : StoreKey) (p : Payload) : Ticker :=
  Ticker.validate
    { t with subscriptions := dinsert t.subscriptions k { p with startDelay := none } }

/-- `Ticker.remove`: `self.subscriptions.pop(store_key, False)` then
re-validate. -/
def Ticker.remove (t : Ticker) (k : StoreKey) : Ticker :=
  Ticker.validate { t with subscriptions := derase t.subscriptions k }

/-- `Ticker.stop`: clear all subscriptions and re-validate. -/
def Ticker.stop (t : Ticker) : Ticker :=
  Ticker.validate { t with subscriptions := [] }

/-- Python truthiness of a `Ticker` instance. The class defines neither
`__bool__`/`__nonzero__` nor `__len__`, so every instance is truthy. -/
def Ticker.truthy (_ : Ticker) : Bool := true

/-! ## TickerPool -/

/-- Log messages emitted by the pool and handler. -/
inductive LogEvent
  | errAddTicker (k : StoreKey)
deriving DecidableEq

/-- The `TickerPool`: the `tickers` dict (interval -> Ticker) plus a
journal of `log_err` calls. -/
structure TickerPool where
  tickers : List (Int × Ticker)
  log : List LogEvent
deriving DecidableEq

def emptyPool : TickerPool := { tickers := [], log := [] }

/-- A freshly constructed `Ticker(interval)` (task not yet started; its
first `next_call_time` would be one full interval away). -/
def newTicker (i : Int) : Ticker :=
  { interval := i, subscriptions := [], running := false, nextCall := i }

/-- `TickerPool.add`: unpack `interval = store_key[3]`; reject a falsy
(i.e. zero) interval with `log_err`; lazily create the ticker for the
interval; delegate to `Ticker.add`. -/
def TickerPool.add (pl : TickerPool) (k : StoreKey) (p : Payload) : TickerPool :=
  if k.interval = 0 then
    { pl with log := pl.log ++ [LogEvent.errAddTicker k] }
  else
    match dlookup pl.tickers k.interval with
    | none =>
        { pl with tickers := dinsert pl.tickers k.interval (Ticker.add (newTicker k.interval) k p) }
    | some t =>
        { pl with tickers := dinsert pl.tickers k.interval (Ticker.add t k p) }

/-- `TickerPool.remove`: delegate to the interval's ticker if present.
The source then guards the `del self.tickers[interval]` with
`if not self.tickers[interval]:`; a `Ticker` instance is always truthy
(`Ticker.truthy`), so the deletion branch is modelled exactly as
written. -/
def TickerPool.remove (pl : TickerPool) (k : StoreKey) : TickerPool :=
  match dlookup pl.tickers k.interval with
  | none => pl
  | some t =>
      let t2 := Ticker.remove t k
      let ts2 := dinsert pl.tickers k.interval t2
      if Ticker.truthy t2 then { pl with tickers := ts2 }
      else { pl with tickers := derase ts2 k.interval }

/-- Stop every ticker in the dict. -/
def stopAllTickers (ts : List (Int × Ticker)) : List (Int × Ticker) :=
  ts.map (fun it => (it.1, Ticker.stop it.2))

/-- Python truthiness of the optional `interval` argument (`None` and
`0` are falsy). -/
def intervalTruthy : Option Int → Bool
  | none => false
  | some i => decide (i ≠ 0)

/-- `TickerPool.stop`: `if interval and interval in self.tickers:` stop
that one ticker, `else` stop every ticker in the pool. -/
def TickerPool.stop (pl : TickerPool) (interval : Option Int) : TickerPool :=
  match interval with
  | some i =>
      if i ≠ 0 then
        match dlookup pl.tickers i with
        | some t => { pl with tickers := dinsert pl.tickers i (Ticker.stop t) }
        | none => { pl with tickers := stopAllTickers pl.tickers }
      else { pl with tickers := stopAllTickers pl.tickers }
  | none => { pl with tickers := stopAllTickers pl.tickers }

/-! ## Concrete fixtures for the pool-level claims -/

def payload0 : Payload :=
  { args := 0, userKw := 0, startDelay := none, cbField := none, objField := none }

def key5 : StoreKey :=
  { obj := some 1, methodname := some "at_tick", path := none,
    interval := 5, idstring := "", persistent := true }

def pool5 : TickerPool := TickerPool.add emptyPool key5 payload0

/-- **C2.** Counter-evaluation of `TickerPool.remove` at a pool whose
interval 5 holds exactly one subscription: after removing that
subscription the `tickers` mapping STILL contains the (now empty,
stopped) `Ticker` for interval 5, because `if not self.tickers[interval]`
tests the always-truthy `Ticker` instance and the `del` never runs. The
claim says the entry for interval 5 would be gone. -/
theorem c2_remove_last_keeps_ticker :
    countKey (TickerPool.remove pool5 key5).tickers 5 = 1 ∧
    (TickerPool.remove pool5 key5).tickers.map Prod.fst = [5] ∧
    ((dlookup (TickerPool.remove pool5 key5).tickers 5).map
      (fun t => (t.subscriptions, t.running))) = some ([], false) := by
  decide

/-! ## TickerHandler: callback classification and store keys -/

/-- A callback argument passed to `TickerHandler.add`/`remove`, as
`inspect` classifies it: a bound method of a database entity (carrying
whether the entity has a `db_key` attribute), a stand-alone module-level
function, some other callable, or not callable at all. -/
inductive Callback
  | method (objId : Nat) (hasDbKey : Bool) (methname : String)
  | fn (modname : String) (fname : String) (tok : Nat)
  | otherCallable
  | notCallable
deriving DecidableEq

/-- `TickerHandler._get_callback`: returns `(obj, path, callfunc)`.
A bound method yields its object (with its `db_key` flag) and the method
name; a function yields its module path and the callable itself; any
other callable yields `(None, None, None)`; a non-callable raises
`TypeError`. -/
def getCallback :
    Callback → Except PyExn (Option (Nat × Bool) × Option String × Option CallbackVal)
  | Callback.method o hdb n => Except.ok (some (o, hdb), none, some (CallbackVal.name n))
  | Callback.fn m f tok => Except.ok (none, some (m ++ "." ++ f), some (CallbackVal.fn tok))
  | Callback.otherCallable => Except.ok (none, none, none)
  | Callback.notCallable => Except.error PyExn.typeError

/-- `TickerHandler._store_key`: `obj` is kept only if truthy with a
`db_key` attribute; `methodname` only if `callfunc` is a truthy string;
`path` only if a truthy string; `persistent` defaults to `True`. -/
def store_key (obj : Option (Nat × Bool)) (path : Option String) (interval : Int)
    (callfunc : Option CallbackVal) (idstring : String) (persistent : Bool) : StoreKey :=
  { obj := match obj with
           | some (o, hdb) => if hdb then some o else none
           | none => none,
    methodname := match callfunc with
           | some (CallbackVal.name s) => if s = "" then none else some s
           | _ => none,
    path := match path with
           | some s => if s = "" then none else some s
           | none => none,
    interval := interval,
    idstring := idstring,
    persistent := persistent }

/-- The store key `TickerHandler.add` derives for a given callback,
interval, idstring and persistent flag (undefined classification cases
collapse to the degenerate all-`None` key, which matches the source for
`otherCallable`). -/
def addKeyOf (interval : Int) (cb : Callback) (idstring : String) (persistent : Bool) :
    StoreKey :=
  match cb with
  | Callback.method o hdb n =>
      store_key (some (o, hdb)) none interval (some (CallbackVal.name n)) idstring persistent
  | Callback.fn m f tok =>
      store_key none (some (m ++ "." ++ f)) interval (some (CallbackVal.fn tok)) idstring persistent
  | _ => store_key none none interval none idstring persistent

/-! ## TickerHandler state and save -/

/-- The `TickerHandler`: the authoritative `ticker_storage` dict, the
`ServerConfig` record holding the last persisted table (`none` when
deleted/absent), and the pool. -/
structure TickerHandler where
  ticker_storage : List (StoreKey × SVal)
  persisted : Option (List (StoreKey × SVal))
  ticker_pool : TickerPool
deriving DecidableEq

/-- `store_key[1]` (the method name) as the Python value used to index
the `start_delays` dict in `save`. -/
def pyOfMethodname : Option String → PyVal
  | some s => PyVal.pstr s
  | none => PyVal.pnone

/-- `start_delays = dict((interval, ticker.task.next_call_time()) ...)`:
a dict keyed by the `int` intervals. -/
def startDelaysOf (pl : TickerPool) : List (PyVal × Int) :=
  pl.tickers.map (fun it => (PyVal.pint it.1, it.2.nextCall))

/-- The update `save` performs on one storage value:
`kwargs["_start_delay"] = start_delays.get(store_key[1], None)`.
(`store_key[1]` is the METHOD NAME of the 6-tuple key, so the lookup in
the int-keyed dict is what the source performs, faithfully.) -/
def saveVal (ds : List (PyVal × Int)) (k : StoreKey) : SVal → SVal
  | SVal.pay p => SVal.pay { p with startDelay := some (dlookup ds (pyOfMethodname k.methodname)) }
  | SVal.skey s => SVal.skey s

/-- The loop `for store_key, (args, kwargs) in self.ticker_storage.items()`
inside `save`: unpacking a non-payload value (a 6-tuple) into
`(args, kwargs)` raises `ValueError`. -/
def saveValues (ds : List (PyVal × Int)) :
    List (StoreKey × SVal) → Except PyExn (List (StoreKey × SVal))
  | [] => Except.ok []
  | (k, SVal.pay p) :: rest =>
      (saveValues ds rest).map
        (fun r => (k, SVal.pay { p with startDelay := some (dlookup ds (pyOfMethodname k.methodname)) }) :: r)
  | (_, SVal.skey _) :: _ => Except.error PyExn.valueError

/-- `TickerHandler.save`: with a non-empty table, set `_start_delay` on
every stored kwargs dict (in place, so `ticker_storage` itself changes)
and persist the table; with an empty table, delete the persisted
record. -/
def TickerHandler.save (h : TickerHandler) : Except PyExn TickerHandler :=
  if h.ticker_storage.isEmpty then Except.ok { h with persisted := none }
  else
    match saveValues (startDelaysOf h.ticker_pool) h.ticker_storage with
    | Except.error e => Except.error e
    | Except.ok st2 => Except.ok { h with ticker_storage := st2, persisted := some st2 }

/-! ## TickerHandler add / remove / clear / all -/

/-- `TickerHandler.add`: classify the callback (a non-callable raises
`TypeError`), build the store key, store the payload, `save()`, then
inject `_obj`/`_callback` into the (aliased) stored kwargs and forward a
copy to the pool. -/
def TickerHandler.add (h : TickerHandler) (interval : Int) (cb : Callback)
    (idstring : String) (persistent : Bool) (args userKw : Nat) :
    Except PyExn TickerHandler :=
  match getCallback cb with
  | Except.error e => Except.error e
  | Except.ok (obj, path, callfunc) =>
      let key := store_key obj path interval callfunc idstring persistent
      let p0 : Payload :=
        { args := args, userKw := userKw, startDelay := none, cbField := none, objField := none }
      let h1 := { h with ticker_storage := dinsert h.ticker_storage key (SVal.pay p0) }
      match TickerHandler.save h1 with
      | Except.error e => Except.error e
      | Except.ok h2 =>
          let p1 := { p0 with
            startDelay := some (dlookup (startDelaysOf h.ticker_pool) (pyOfMethodname key.methodname)) }
          let p2 := { p1 with objField := some (obj.map Prod.fst), cbField := some callfunc }
          Except.ok { h2 with
            ticker_storage := dinsert h2.ticker_storage key (SVal.pay p2),
            ticker_pool := TickerPool.add h2.ticker_pool key p2 }

/-- `TickerHandler.remove`: rebuild the store key from the same
classification (with `persistent` at its DEFAULT `True`), pop it from
the table; only if something was popped (a stored tuple is always
truthy), forward the removal to the pool and `save()`. -/
def TickerHandler.remove (h : TickerHandler) (interval : Int) (cb : Callback)
    (idstring : String) : Except PyExn TickerHandler :=
  match getCallback cb with
  | Except.error e => Except.error e
  | Except.ok (obj, path, callfunc) =>
      let key := store_key obj path interval callfunc idstring true
      match dlookup h.ticker_storage key with
      | none => Except.ok h
      | some _ =>
          TickerHandler.save
            { h with ticker_storage := derase h.ticker_storage key,
                     ticker_pool := TickerPool.remove h.ticker_pool key }

/-- The table rebuild in `clear(interval)`:
`dict((store_key, store_key) for store_key in self.ticker_storage
if store_key[1] != interval)` — the filter compares the METHOD NAME
(index 1) against the int interval (never equal), and each kept entry's
value is the key itself. -/
def clearTable (i : Int) (stor : List (StoreKey × SVal)) : List (StoreKey × SVal) :=
  (stor.filter (fun kv => decide (pyOfMethodname kv.1.methodname ≠ PyVal.pint i))).map
    (fun kv => (kv.1, SVal.skey kv.1))

/-- `TickerHandler.clear`: stop tickers via the pool, rebuild or empty
the table, then `save()`. -/
def TickerHandler.clear (h : TickerHandler) (interval : Option Int) :
    Except PyExn TickerHandler :=
  let pl := TickerPool.stop h.ticker_pool interval
  let stor :=
    if intervalTruthy interval then
      match interval with
      | some i => clearTable i h.ticker_storage
      | none => []
    else []
  TickerHandler.save { h with ticker_pool := pl, ticker_storage := stor }

/-- `TickerHandler.all`: with no interval, the dict of every ticker's
subscriptions; with an interval, `{interval: subscriptions}` if a ticker
exists for it, else Python `None`. -/
def TickerHandler.all (h : TickerHandler) (interval : Option Int) :
    Option (List (Int × List (StoreKey × Payload))) :=
  match interval with
  | none => some (h.ticker_pool.tickers.map (fun it => (it.1, it.2.subscriptions)))
  | some i =>
      match dlookup h.ticker_pool.tickers i with
      | some t => some [(i, t.subscriptions)]
      | none => none

/-- The total number of live subscriptions reported by `all()` with no
interval argument. -/
def allCount (h : TickerHandler) : Nat :=
  match TickerHandler.all h none with
  | some l => (l.map (fun it => it.2.length)).sum
  | none => 0

/-- The store keys reported by `all(interval)`. -/
def allSubsKeys (h : TickerHandler) (i : Int) : List StoreKey :=
  match TickerHandler.all h (some i) with
  | some l => (l.map (fun pr => pr.2.map Prod.fst)).flatten
  | none => []

/-- Equality of `Except` results is decidable (used to evaluate the
model at concrete inputs). -/
def exceptEqDec {ε α : Type} [DecidableEq ε] [DecidableEq α] :
    (a b : Except ε α) → Decidable (a = b)
  | Except.error e, Except.error f =>
      if h : e = f then Decidable.isTrue (by rw [h])
      else Decidable.isFalse (by simp [h])
  | Except.error _, Except.ok _ => Decidable.isFalse (by simp)
  | Except.ok _, Except.error _ => Decidable.isFalse (by simp)
  | Except.ok a, Except.ok b =>
      if h : a = b then Decidable.isTrue (by rw [h])
      else Decidable.isFalse (by simp [h])

instance {ε α : Type} [DecidableEq ε] [DecidableEq α] : DecidableEq (Except ε α) :=
  exceptEqDec

/-! ## C3: save discards the tick phase -/

def key15 : StoreKey :=
  { obj := some 1, methodname := some "at_tick", path := none,
    interval := 15, idstring := "", persistent := true }

def ticker15 : Ticker :=
  { interval := 15, subscriptions := [(key15, payload0)], running := true, nextCall := 7 }

def handler15 : TickerHandler :=
  { ticker_storage := [(key15, SVal.pay payload0)],
    persisted := none,
    ticker_pool := { tickers := [(15, ticker15)], log := [] } }

/-- **C3.** Counter-evaluation of `save` on a table with one
subscription at interval 15 whose ticker's next firing is 7 seconds
away: the persisted `_start_delay` is `None` (the lookup
`start_delays.get(store_key[1])` indexes the int-keyed delay dict with
the METHOD NAME, so it always misses), not the remaining time 7 the
claim requires. -/
theorem c3_save_start_delay_none :
    (TickerHandler.save handler15).map
      (fun h2 => (dlookup h2.ticker_storage key15,
                  h2.persisted.map (fun st => dlookup st key15)))
      = Except.ok (some (SVal.pay { payload0 with startDelay := some none }),
                   some (some (SVal.pay { payload0 with startDelay := some none }))) := by
  decide

/-! ## C4: clear(interval) corrupts the table and raises -/

/-- **C4.** Counter-evaluation of `clear(5)` on a table with exactly one
subscription, at interval 5: the rebuilt table KEEPS the interval-5
entry (the filter compares `store_key[1]`, the method name, with the
interval and never matches) with its payload destroyed — replaced by the
store key itself — and the `save()` that `clear` then performs raises
`ValueError` unpacking that 6-tuple value. The claim requires the
interval-5 entry removed, other payloads intact, and the reduced table
persisted. -/
theorem c4_clear_corrupts_table_and_raises :
    clearTable 5 [(key5, SVal.pay payload0)] = [(key5, SVal.skey key5)] ∧
    TickerHandler.clear
      { ticker_storage := [(key5, SVal.pay payload0)], persisted := none, ticker_pool := pool5 }
      (some 5) = Except.error PyExn.valueError := by
  decide

/-! ## The external world: entity liveness, callback behaviour, imports -/

/-- What invoking a subscription's callable does on one firing. -/
inductive TickExn
  | objectDoesNotExist
  | generic
deriving DecidableEq

/-- Result of one callable invocation. -/
inductive CallResult
  | ok
  | exn (e : TickExn)
deriving DecidableEq

/-- The environment the scheduler runs against: which database objects
still persist (`obj.pk` truthy), what each subscription's callable does
when invoked this tick, and which python-paths
`variable_from_module` can resolve (to a callable token). -/
structure World where
  alive : Nat → Bool
  res : StoreKey → CallResult
  resolvePath : String → Option Nat

/-! ## TickerHandler.restore -/

/-- Python truthiness of the unserialized `obj` (a database object is
truthy). -/
def optNatTruthy : Option Nat → Bool
  | some _ => true
  | none => false

/-- Python truthiness of an optional string (`None` and `""` falsy). -/
def optStrTruthy : Option String → Bool
  | some s => !(s == "")
  | none => false

/-- The per-entry body of the restore loop's `try`: inject
`_callback`/`_obj` for an entity method, or import the function for a
path entry (`none` = the import raised, caught and logged, entry
dropped); an entry with neither classification is stored untouched. -/
def restoreEntry (w : World) (k : StoreKey) (p : Payload) : Option Payload :=
  if optNatTruthy k.obj && optStrTruthy k.methodname then
    some { p with cbField := some (some (CallbackVal.name (k.methodname.getD ""))),
                  objField := some k.obj }
  else if optStrTruthy k.path then
    match w.resolvePath (k.path.getD "") with
    | some tok =>
        some { p with cbField := some (some (CallbackVal.fn tok)), objField := some none }
    | none => none
  else some p

/-- The `for store_key, (args, kwargs) in restored_tickers.iteritems()`
loop of `restore`. Unpacking a 6-tuple value in the loop header (outside
the `try`) raises `ValueError`. A non-persistent entry is skipped on a
cold restart. Each surviving entry is stored in the accumulator dict,
`self.ticker_storage` is (re)assigned (tracked by the `assigned` flag),
and the entry is forwarded to the pool. -/
def restoreLoop (w : World) (reload : Bool) :
    List (StoreKey × SVal) → List (StoreKey × SVal) → Bool → TickerPool →
    Except PyExn (List (StoreKey × SVal) × Bool × TickerPool)
  | [], acc, assigned, pl => Except.ok (acc, assigned, pl)
  | (_, SVal.skey _) :: _, _, _, _ => Except.error PyExn.valueError
  | (k, SVal.pay p) :: rest, acc, assigned, pl =>
      if !k.persistent && !reload then restoreLoop w reload rest acc assigned pl
      else
        match restoreEntry w k p with
        | none => restoreLoop w reload rest acc assigned pl
        | some p2 =>
            restoreLoop w reload rest (dinsert acc k (SVal.pay p2)) true
              (TickerPool.add pl k p2)

/-- `TickerHandler.restore(server_reload)`: a missing or empty (falsy)
persisted record is a no-op; otherwise run the loop; `ticker_storage`
keeps its previous value when no entry survived (the assignment inside
the loop never ran). -/
def TickerHandler.restore (w : World) (h : TickerHandler) (server_reload : Bool) :
    Except PyExn TickerHandler :=
  match h.persisted with
  | none => Except.ok h
  | some entries =>
      if entries.isEmpty then Except.ok h
      else
        match restoreLoop w server_reload entries [] false h.ticker_pool with
        | Except.error e => Except.error e
        | Except.ok (acc, assigned, pl) =>
            Except.ok { h with
              ticker_pool := pl,
              ticker_storage := if assigned then acc else h.ticker_storage }

/-! ## Ticker._callback: one firing -/

/-- Matching of the first `except` clause, `except ObjectDoesNotExist`. -/
def catchesODE : TickExn → Bool
  | TickExn.objectDoesNotExist => true
  | TickExn.generic => false

/-- Matching of the second `except` clause, `except Exception`: every
exception modelled here derives `Exception`. -/
def catchesException : TickExn → Bool
  | TickExn.objectDoesNotExist => true
  | TickExn.generic => true

/-- What the two `except` clauses of `Ticker._callback` do with a raised
exception, tried in source order: `(marked-for-removal, log entry,
escaped-the-handler)`. -/
def handleRaise (e : TickExn) : Bool × Option Bool × Bool :=
  if catchesODE e then (true, some true, false)
  else if catchesException e then (false, some false, false)
  else (false, none, true)

/-- The log entry kinds of one firing: `true` is the
`log_trace("Removing ticker.")` of the `ObjectDoesNotExist` clause,
`false` the plain `log_trace()` of the generic clause. -/
def objAliveB (w : World) : Option Nat → Bool
  | some o => w.alive o
  | none => false

/-- Outcome of processing one subscription inside `Ticker._callback`. -/
structure EntryRes where
  p : Payload
  invoked : Bool
  removed : Bool
  log : Option Bool
  escaped : Bool
deriving DecidableEq

/-- The `_callback` value an entry is invoked with:
`kwargs.pop("_callback", "at_tick")`. -/
def cbUsed (p : Payload) : Option CallbackVal :=
  p.cbField.getD (some (CallbackVal.name "at_tick"))

/-- The `_obj` value an entry is invoked with:
`kwargs.pop("_obj", None)`. -/
def objUsed (p : Payload) : Option Nat :=
  p.objField.getD none

/-- The payload after the `finally` block re-stores the two popped
kwargs (they become explicitly present). -/
def normPayload (p : Payload) : Payload :=
  { p with cbField := some (cbUsed p), objField := some (objUsed p) }

/-- One iteration of the `_callback` loop:
`callback = kwargs.pop("_callback", "at_tick")`,
`obj = kwargs.pop("_obj", None)`; a callable `_callback` is invoked
directly; otherwise a dead or missing object marks the key for removal
(silently); otherwise the named method is invoked. Raises are dispatched
by the `except` clauses; the `finally` block re-stores both kwargs
(making them explicitly present afterwards). -/
def stepEntry (w : World) (k : StoreKey) (p : Payload) : EntryRes :=
  let o := objUsed p
  let p2 := normPayload p
  match cbUsed p with
  | some (CallbackVal.fn _) =>
      match w.res k with
      | CallResult.ok => { p := p2, invoked := true, removed := false, log := none, escaped := false }
      | CallResult.exn e =>
          let r := handleRaise e
          { p := p2, invoked := true, removed := r.1, log := r.2.1, escaped := r.2.2 }
  | some (CallbackVal.name _) =>
      if objAliveB w o then
        match w.res k with
        | CallResult.ok => { p := p2, invoked := true, removed := false, log := none, escaped := false }
        | CallResult.exn e =>
            let r := handleRaise e
            { p := p2, invoked := true, removed := r.1, log := r.2.1, escaped := r.2.2 }
      else { p := p2, invoked := false, removed := true, log := none, escaped := false }
  | none =>
      if objAliveB w o then
        let r := handleRaise TickExn.generic
        { p := p2, invoked := false, removed := r.1, log := r.2.1, escaped := r.2.2 }
      else { p := p2, invoked := false, removed := true, log := none, escaped := false }

/-- Aggregate bookkeeping of one firing: which keys were invoked, which
were marked for removal, the log entries (key, is-removing-trace), and
whether any raise escaped both `except` clauses. -/
structure TickMeta where
  invoked : List StoreKey
  removed : List StoreKey
  logs : List (StoreKey × Bool)
  escaped : Bool
deriving DecidableEq

/-- The main loop of `Ticker._callback` over the subscriptions dict:
processes every entry in order, updating the stored kwargs in place. -/
def tickPass (w : World) :
    List (StoreKey × Payload) → List (StoreKey × Payload) × TickMeta
  | [] => ([], { invoked := [], removed := [], logs := [], escaped := false })
  | (k, p) :: rest =>
      let r := stepEntry w k p
      let rs := tickPass w rest
      ((k, r.p) :: rs.1,
       { invoked := (if r.invoked then [k] else []) ++ rs.2.invoked,
         removed := (if r.removed then [k] else []) ++ rs.2.removed,
         logs := (match r.log with | some b => [(k, b)] | none => []) ++ rs.2.logs,
         escaped := r.escaped || rs.2.escaped })

/-- One full firing of a ticker: run the loop, then
`for store_key in to_remove: self.remove(store_key)`. -/
def Ticker.fire (w : World) (t : Ticker) : Ticker × TickMeta :=
  let pr := tickPass w t.subscriptions
  (pr.2.removed.foldl Ticker.remove { t with subscriptions := pr.1 }, pr.2)

/-- The event loop firing the ticker registered at interval `i`. -/
def fireAt (w : World) (h : TickerHandler) (i : Int) : TickerHandler :=
  match dlookup h.ticker_pool.tickers i with
  | none => h
  | some t =>
      { h with ticker_pool :=
          { h.ticker_pool with
            tickers := dinsert h.ticker_pool.tickers i (Ticker.fire w t).1 } }

/-- Whether processing this entry reaches an actual call of the
callable. -/
def willInvoke (w : World) (p : Payload) : Bool :=
  match cbUsed p with
  | some (CallbackVal.fn _) => true
  | some (CallbackVal.name _) => objAliveB w (objUsed p)
  | none => false

/-! ## Association-list lemmas -/

theorem dlookup_dinsert_self {α β : Type} [DecidableEq α]
    (l : List (α × β)) (a : α) (b : β) : dlookup (dinsert l a b) a = some b := by
  induction l with
  | nil => simp [dinsert, dlookup]
  | cons kv t ih =>
      obtain ⟨k, v⟩ := kv
      by_cases h : k = a
      · simp [dinsert, dlookup, h]
      · simp [dinsert, dlookup, h, ih]

theorem dlookup_dinsert_ne {α β : Type} [DecidableEq α]
    (l : List (α × β)) (a c : α) (b : β) (hne : c ≠ a) :
    dlookup (dinsert l a b) c = dlookup l c := by
  induction l with
  | nil => simp [dinsert, dlookup, Ne.symm hne]
  | cons kv t ih =>
      obtain ⟨k, v⟩ := kv
      by_cases h : k = a
      · subst h
        simp [dinsert, dlookup, Ne.symm hne]
      · simp [dinsert, dlookup, h, ih]

theorem countKey_eq_zero_of_dlookup_none {α β : Type} [DecidableEq α]
    (l : List (α × β)) (a : α) (h : dlookup l a = none) : countKey l a = 0 := by
  induction l with
  | nil => simp [countKey]
  | cons kv t ih =>
      obtain ⟨k, v⟩ := kv
      by_cases hk : k = a
      · simp [dlookup, hk] at h
      · simp [dlookup, hk] at h
        simp [countKey, hk] at ih ⊢
        exact ih h

theorem countKey_dinsert_some {α β : Type} [DecidableEq α]
    (l : List (α × β)) (a : α) (b : β) (h : (dlookup l a).isSome) :
    countKey (dinsert l a b) a = countKey l a := by
  induction l with
  | nil => simp [dlookup] at h
  | cons kv t ih =>
      obtain ⟨k, v⟩ := kv
      by_cases hk : k = a
      · simp [dinsert, hk, countKey]
      · simp [dlookup, hk] at h
        simp [dinsert, hk, countKey] at ih ⊢
        exact ih h

theorem countKey_dinsert_none {α β : Type} [DecidableEq α]
    (l : List (α × β)) (a : α) (b : β) (h : dlookup l a = none) :
    countKey (dinsert l a b) a = countKey l a + 1 := by
  induction l with
  | nil => simp [dinsert, countKey]
  | cons kv t ih =>
      obtain ⟨k, v⟩ := kv
      by_cases hk : k = a
      · simp [dlookup, hk] at h
      · simp [dlookup, hk] at h
        simp [dinsert, hk, countKey] at ih ⊢
        exact ih h

/-! ## C1: one ticker per interval -/

/-- A sequence of `TickerPool.add` calls. -/
def poolAddFold (pl : TickerPool) (adds : List (StoreKey × Payload)) : TickerPool :=
  adds.foldl (fun q kp => TickerPool.add q kp.1 kp.2) pl

theorem poolAdd_tickers_of_mem (pl : TickerPool) (k : StoreKey) (p : Payload) (i : Int)
    (hk : k.interval = i) (hi : i ≠ 0)
    (h1 : countKey pl.tickers i = 1) (h2 : (dlookup pl.tickers i).isSome) :
    countKey (TickerPool.add pl k p).tickers i = 1 ∧
      (dlookup (TickerPool.add pl k p).tickers i).isSome := by
  obtain ⟨t, ht⟩ := Option.isSome_iff_exists.mp h2
  subst hk
  simp only [TickerPool.add, hi, if_neg, ht]
  constructor
  · simpa [countKey_dinsert_some _ _ _ h2] using h1
  · simp [dlookup_dinsert_self]

theorem poolAddFold_preserves_one (adds : List (StoreKey × Payload)) (pl : TickerPool)
    (i : Int) (hi : i ≠ 0) (hall : ∀ kp ∈ adds, kp.1.interval = i)
    (h1 : countKey pl.tickers i = 1) (h2 : (dlookup pl.tickers i).isSome) :
    countKey (poolAddFold pl adds).tickers i = 1 := by
  induction adds generalizing pl with
  | nil => exact h1
  | cons kp rest ih =>
      have hk : kp.1.interval = i := hall kp (List.mem_cons_self kp rest)
      have hstep := poolAdd_tickers_of_mem pl kp.1 kp.2 i hk hi h1 h2
      exact ih (TickerPool.add pl kp.1 kp.2)
        (fun x hx => hall x (List.mem_cons_of_mem kp hx)) hstep.1 hstep.2

/-- **C1.** Resource sharing: after any non-empty sequence of
`TickerPool.add` calls on a fresh pool, all with store keys whose
interval field equals `i` (with `i` non-zero), the pool's `tickers`
mapping contains exactly one entry for `i`, regardless of how many
distinct store keys were added. -/
theorem c1_one_ticker_per_interval (adds : List (StoreKey × Payload)) (i : Int)
    (hne : adds ≠ []) (hi : i ≠ 0)
    (hall : ∀ kp ∈ adds, kp.1.interval = i) :
    countKey (poolAddFold emptyPool adds).tickers i = 1 := by
  match adds, hne with
  | kp :: rest, _ =>
      have hk : kp.1.interval = i := hall kp (List.mem_cons_self kp rest)
      have hfold : poolAddFold emptyPool (kp :: rest)
          = poolAddFold (TickerPool.add emptyPool kp.1 kp.2) rest := rfl
      rw [hfold]
      have hbase1 : countKey (TickerPool.add emptyPool kp.1 kp.2).tickers i = 1 := by
        subst hk
        simp [TickerPool.add, hi, emptyPool, dlookup, dinsert, countKey]
      have hbase2 : (dlookup (TickerPool.add emptyPool kp.1 kp.2).tickers i).isSome := by
        subst hk
        simp [TickerPool.add, hi, emptyPool, dlookup, dinsert]
      exact poolAddFold_preserves_one rest _ i hi
        (fun x hx => hall x (List.mem_cons_of_mem kp hx)) hbase1 hbase2

/-- Witness for C1 at a concrete input: two distinct keys at interval 7
on a fresh pool yield exactly one ticker entry for 7. -/
theorem c1_witness :
    ([({ key5 with interval := 7 }, payload0),
      ({ key5 with interval := 7, idstring := "b" }, payload0)] : List (StoreKey × Payload)) ≠ [] ∧
    (7 : Int) ≠ 0 ∧
    countKey (poolAddFold emptyPool
      [({ key5 with interval := 7 }, payload0),
       ({ key5 with interval := 7, idstring := "b" }, payload0)]).tickers 7 = 1 :=
  ⟨by decide, by decide,
   c1_one_ticker_per_interval _ 7 (by decide) (by decide) (by decide)⟩

/-! ## More association-list lemmas -/

theorem mem_of_dlookup {α β : Type} [DecidableEq α] (l : List (α × β)) (a : α) (b : β)
    (h : dlookup l a = some b) : (a, b) ∈ l := by
  induction l with
  | nil => simp [dlookup] at h
  | cons kv t ih =>
      obtain ⟨k, v⟩ := kv
      by_cases hk : k = a
      · subst hk
        simp [dlookup] at h
        subst h
        exact List.mem_cons_self _ _
      · simp [dlookup, hk] at h
        exact List.mem_cons_of_mem _ (ih h)

theorem dlookup_eq_none_iff {α β : Type} [DecidableEq α] (l : List (α × β)) (a : α) :
    dlookup l a = none ↔ a ∉ l.map Prod.fst := by
  induction l with
  | nil => simp [dlookup]
  | cons kv t ih =>
      obtain ⟨k, v⟩ := kv
      by_cases hk : k = a
      · subst hk
        simp [dlookup]
      · simp [dlookup, hk, ih, Ne.symm hk]

theorem dlookup_of_mem_nodup {α β : Type} [DecidableEq α] (l : List (α × β)) (a : α) (b : β)
    (hnd : NodupKeys l) (hmem : (a, b) ∈ l) : dlookup l a = some b := by
  induction l with
  | nil => cases hmem
  | cons kv t ih =>
      obtain ⟨k, v⟩ := kv
      simp only [NodupKeys, List.map_cons, List.nodup_cons] at hnd
      rcases List.mem_cons.mp hmem with heq | hmem2
      · obtain ⟨h1, h2⟩ := Prod.mk.injEq .. ▸ heq
        subst h1; subst h2
        simp [dlookup]
      · have hk : k ≠ a := by
          intro hka
          subst hka
          exact hnd.1 (List.mem_map_of_mem Prod.fst hmem2)
        simp only [dlookup, if_neg hk]
        exact ih hnd.2 hmem2

theorem derase_sublist {α β : Type} [DecidableEq α] (l : List (α × β)) (a : α) :
    List.Sublist (derase l a) l := by
  induction l with
  | nil => exact List.Sublist.refl []
  | cons kv t ih =>
      obtain ⟨k, v⟩ := kv
      by_cases hk : k = a
      · simp only [derase, if_pos hk]
        exact List.sublist_cons_self (k, v) t
      · simp only [derase, if_neg hk]
        exact List.Sublist.cons₂ (k, v) ih

theorem nodupKeys_derase {α β : Type} [DecidableEq α] (l : List (α × β)) (a : α)
    (hnd : NodupKeys l) : NodupKeys (derase l a) :=
  List.Nodup.sublist (List.Sublist.map Prod.fst (derase_sublist l a)) hnd

theorem dlookup_derase_ne {α β : Type} [DecidableEq α] (l : List (α × β)) (a c : α)
    (hne : c ≠ a) : dlookup (derase l a) c = dlookup l c := by
  induction l with
  | nil => rfl
  | cons kv t ih =>
      obtain ⟨k, v⟩ := kv
      by_cases hk : k = a
      · subst hk
        simp [derase, dlookup, Ne.symm hne]
      · simp [derase, dlookup, hk, ih]

theorem dlookup_derase_self {α β : Type} [DecidableEq α] (l : List (α × β)) (a : α)
    (hnd : NodupKeys l) : dlookup (derase l a) a = none := by
  induction l with
  | nil => rfl
  | cons kv t ih =>
      obtain ⟨k, v⟩ := kv
      simp only [NodupKeys, List.map_cons, List.nodup_cons] at hnd
      by_cases hk : k = a
      · subst hk
        simp only [derase, if_pos rfl]
        exact (dlookup_eq_none_iff t k).mpr hnd.1
      · simp only [derase, if_neg hk, dlookup, if_neg hk]
        exact ih hnd.2

theorem dlookup_derase_none {α β : Type} [DecidableEq α] (l : List (α × β)) (a c : α)
    (h : dlookup l c = none) : dlookup (derase l a) c = none := by
  induction l with
  | nil => rfl
  | cons kv t ih =>
      obtain ⟨k, v⟩ := kv
      by_cases hkc : k = c
      · simp [dlookup, hkc] at h
      · by_cases hka : k = a
        · subst hka
          simp only [dlookup, if_neg hkc] at h
          simp only [derase, if_pos rfl]
          exact h
        · simp only [dlookup, if_neg hkc] at h
          simp only [derase, if_neg hka, dlookup, if_neg hkc]
          exact ih h

theorem dlookup_foldl_derase_none {α β : Type} [DecidableEq α]
    (ks : List α) (l : List (α × β)) (a : α) (h : dlookup l a = none) :
    dlookup (List.foldl derase l ks) a = none := by
  induction ks generalizing l with
  | nil => exact h
  | cons kk kt ih => exact ih _ (dlookup_derase_none l kk a h)

theorem dlookup_foldl_derase_not_mem {α β : Type} [DecidableEq α]
    (ks : List α) (l : List (α × β)) (a : α) (h : a ∉ ks) :
    dlookup (List.foldl derase l ks) a = dlookup l a := by
  induction ks generalizing l with
  | nil => rfl
  | cons kk kt ih =>
      have h1 : a ≠ kk := fun heq => h (heq ▸ List.mem_cons_self kk kt)
      have h2 : a ∉ kt := fun hm => h (List.mem_cons_of_mem kk hm)
      calc dlookup (List.foldl derase (derase l kk) kt) a
          = dlookup (derase l kk) a := ih (derase l kk) h2
        _ = dlookup l a := dlookup_derase_ne l kk a h1

theorem dlookup_foldl_derase_mem {α β : Type} [DecidableEq α]
    (ks : List α) (l : List (α × β)) (a : α) (hnd : NodupKeys l) (h : a ∈ ks) :
    dlookup (List.foldl derase l ks) a = none := by
  induction ks generalizing l with
  | nil => cases h
  | cons kk kt ih =>
      by_cases hak : a = kk
      · subst hak
        exact dlookup_foldl_derase_none kt _ a (dlookup_derase_self l a hnd)
      · have h2 : a ∈ kt := (List.mem_cons.mp h).resolve_left hak
        exact ih (derase l kk) (nodupKeys_derase l kk hnd) h2

instance {α β : Type} [DecidableEq α] (l : List (α × β)) : Decidable (NodupKeys l) :=
  inferInstanceAs (Decidable (l.map Prod.fst).Nodup)

/-! ## Firing-loop lemmas -/

theorem stepEntry_p (w : World) (k : StoreKey) (p : Payload) :
    (stepEntry w k p).p = normPayload p := by
  unfold stepEntry
  rcases hcb : cbUsed p with _ | cv
  · by_cases h : objAliveB w (objUsed p) <;>
      simp [h, handleRaise, catchesODE, catchesException]
  · rcases cv with tok | s
    · rcases hres : w.res k with _ | e
      · simp
      · rcases e <;> simp [handleRaise, catchesODE, catchesException]
    · by_cases h : objAliveB w (objUsed p)
      · rcases hres : w.res k with _ | e
        · simp [h]
        · rcases e <;> simp [h, handleRaise, catchesODE, catchesException]
      · simp [h]

theorem stepEntry_invoked (w : World) (k : StoreKey) (p : Payload) :
    (stepEntry w k p).invoked = willInvoke w p := by
  unfold stepEntry willInvoke
  rcases hcb : cbUsed p with _ | cv
  · by_cases h : objAliveB w (objUsed p) <;>
      simp [h, handleRaise, catchesODE, catchesException]
  · rcases cv with tok | s
    · rcases hres : w.res k with _ | e
      · simp
      · rcases e <;> simp [handleRaise, catchesODE, catchesException]
    · by_cases h : objAliveB w (objUsed p)
      · rcases hres : w.res k with _ | e
        · simp [h]
        · rcases e <;> simp [h, handleRaise, catchesODE, catchesException]
      · simp [h]

theorem stepEntry_escaped (w : World) (k : StoreKey) (p : Payload) :
    (stepEntry w k p).escaped = false := by
  unfold stepEntry
  rcases hcb : cbUsed p with _ | cv
  · by_cases h : objAliveB w (objUsed p) <;>
      simp [h, handleRaise, catchesODE, catchesException]
  · rcases cv with tok | s
    · rcases hres : w.res k with _ | e
      · simp
      · rcases e <;> simp [handleRaise, catchesODE, catchesException]
    · by_cases h : objAliveB w (objUsed p)
      · rcases hres : w.res k with _ | e
        · simp [h]
        · rcases e <;> simp [h, handleRaise, catchesODE, catchesException]
      · simp [h]

theorem stepEntry_generic (w : World) (k : StoreKey) (p : Payload)
    (hinv : willInvoke w p = true) (hres : w.res k = CallResult.exn TickExn.generic) :
    (stepEntry w k p).removed = false ∧ (stepEntry w k p).log = some false ∧
      (stepEntry w k p).invoked = true := by
  unfold stepEntry
  unfold willInvoke at hinv
  rcases hcb : cbUsed p with _ | cv
  · simp [hcb] at hinv
  · rcases cv with tok | s
    · simp only [hcb] at hinv ⊢
      simp [hres, handleRaise, catchesODE, catchesException]
    · simp only [hcb] at hinv ⊢
      simp [hinv, hres, handleRaise, catchesODE, catchesException]

theorem stepEntry_dead (w : World) (k : StoreKey) (p : Payload) (s : String) (o : Nat)
    (hcb : cbUsed p = some (CallbackVal.name s)) (ho : objUsed p = some o)
    (hdead : w.alive o = false) :
    (stepEntry w k p).removed = true ∧ (stepEntry w k p).invoked = false ∧
      (stepEntry w k p).log = none := by
  have halive : objAliveB w (objUsed p) = false := by
    rw [ho]; exact hdead
  unfold stepEntry
  simp [hcb, halive]

theorem tickPass_keys (w : World) (l : List (StoreKey × Payload)) :
    (tickPass w l).1.map Prod.fst = l.map Prod.fst := by
  induction l with
  | nil => rfl
  | cons kv t ih =>
      obtain ⟨k, p⟩ := kv
      simp [tickPass, ih]

theorem tickPass_lookup (w : World) (l : List (StoreKey × Payload)) (a : StoreKey) :
    dlookup (tickPass w l).1 a = (dlookup l a).map (fun p => (stepEntry w a p).p) := by
  induction l with
  | nil => simp [tickPass, dlookup]
  | cons kv t ih =>
      obtain ⟨k, p⟩ := kv
      by_cases h : k = a
      · subst h
        simp [tickPass, dlookup]
      · simp [tickPass, dlookup, h, ih]

theorem tickPass_invoked_eq (w : World) (l : List (StoreKey × Payload)) :
    (tickPass w l).2.invoked
      = l.filterMap (fun kv => if (stepEntry w kv.1 kv.2).invoked then some kv.1 else none) := by
  induction l with
  | nil => rfl
  | cons kv t ih =>
      obtain ⟨k, p⟩ := kv
      by_cases h : (stepEntry w k p).invoked <;>
        simp [tickPass, List.filterMap_cons, h, ih]

theorem tickPass_removed_eq (w : World) (l : List (StoreKey × Payload)) :
    (tickPass w l).2.removed
      = l.filterMap (fun kv => if (stepEntry w kv.1 kv.2).removed then some kv.1 else none) := by
  induction l with
  | nil => rfl
  | cons kv t ih =>
      obtain ⟨k, p⟩ := kv
      by_cases h : (stepEntry w k p).removed <;>
        simp [tickPass, List.filterMap_cons, h, ih]

theorem tickPass_logs_eq (w : World) (l : List (StoreKey × Payload)) :
    (tickPass w l).2.logs
      = l.filterMap (fun kv => (stepEntry w kv.1 kv.2).log.map (fun b => (kv.1, b))) := by
  induction l with
  | nil => rfl
  | cons kv t ih =>
      obtain ⟨k, p⟩ := kv
      rcases hl : (stepEntry w k p).log with _ | b <;>
        simp [tickPass, List.filterMap_cons, hl, ih]

theorem tickPass_escaped (w : World) (l : List (StoreKey × Payload)) :
    (tickPass w l).2.escaped = false := by
  induction l with
  | nil => rfl
  | cons kv t ih =>
      obtain ⟨k, p⟩ := kv
      simp [tickPass, stepEntry_escaped, ih]

theorem validate_subscriptions (t : Ticker) :
    (Ticker.validate t).subscriptions = t.subscriptions := by
  unfold Ticker.validate
  split <;> split <;> rfl

theorem foldl_remove_subscriptions (ks : List StoreKey) (t : Ticker) :
    (List.foldl Ticker.remove t ks).subscriptions = List.foldl derase t.subscriptions ks := by
  induction ks generalizing t with
  | nil => rfl
  | cons kk kt ih =>
      simp only [List.foldl_cons]
      rw [ih]
      simp [Ticker.remove, validate_subscriptions]

theorem fire_subscriptions (w : World) (t : Ticker) :
    (Ticker.fire w t).1.subscriptions
      = List.foldl derase (tickPass w t.subscriptions).1
          (tickPass w t.subscriptions).2.removed := by
  simp [Ticker.fire, foldl_remove_subscriptions]

theorem fire_meta (w : World) (t : Ticker) :
    (Ticker.fire w t).2 = (tickPass w t.subscriptions).2 := rfl

theorem cbUsed_normPayload (p : Payload) : cbUsed (normPayload p) = cbUsed p := rfl

theorem objUsed_normPayload (p : Payload) : objUsed (normPayload p) = objUsed p := rfl

theorem willInvoke_normPayload (w : World) (p : Payload) :
    willInvoke w (normPayload p) = willInvoke w p := by
  unfold willInvoke
  rw [cbUsed_normPayload, objUsed_normPayload]

/-! ## C5: per-subscriber fault isolation -/

/-- **C5.** Subscriber fault isolation in `Ticker._callback`: if the
subscription under key `k` is actually invoked and its callable raises a
generic exception this firing, then after the firing (1) `k` is still in
the subscription mapping, with its `_callback`/`_obj` intact, (2) it is
still invocable on the next tick, (3) the exception was logged
(`log_trace()`, the non-removing trace), (4) every subscriber that
reaches an invocation this firing is invoked, and (5) no exception
escapes the firing's `except` clauses. -/
theorem c5_fault_isolation (w : World) (t : Ticker) (k : StoreKey) (p : Payload)
    (hnd : NodupKeys t.subscriptions)
    (hk : dlookup t.subscriptions k = some p)
    (hinv : willInvoke w p = true)
    (hres : w.res k = CallResult.exn TickExn.generic) :
    dlookup (Ticker.fire w t).1.subscriptions k = some (normPayload p) ∧
    willInvoke w (normPayload p) = true ∧
    (k, false) ∈ (Ticker.fire w t).2.logs ∧
    (∀ k2 p2, (k2, p2) ∈ t.subscriptions → willInvoke w p2 = true →
        k2 ∈ (Ticker.fire w t).2.invoked) ∧
    (Ticker.fire w t).2.escaped = false := by
  obtain ⟨hrem, hlog, _⟩ := stepEntry_generic w k p hinv hres
  have hknotrem : k ∉ (tickPass w t.subscriptions).2.removed := by
    rw [tickPass_removed_eq]
    intro hmem
    obtain ⟨kv, hkv, heq⟩ := List.mem_filterMap.mp hmem
    by_cases hflag : (stepEntry w kv.1 kv.2).removed
    · rw [if_pos hflag] at heq
      obtain ⟨k2, p2⟩ := kv
      obtain heq2 : k2 = k := by injection heq
      subst heq2
      have hl2 := dlookup_of_mem_nodup _ _ _ hnd hkv
      rw [hk] at hl2
      obtain hp2 : p = p2 := by injection hl2
      subst hp2
      rw [hrem] at hflag
      exact Bool.false_ne_true hflag
    · rw [if_neg hflag] at heq
      exact Option.noConfusion heq
  refine ⟨?_, ?_, ?_, ?_, ?_⟩
  · rw [fire_subscriptions, dlookup_foldl_derase_not_mem _ _ _ hknotrem,
        tickPass_lookup, hk]
    simp [stepEntry_p]
  · rw [willInvoke_normPayload]
    exact hinv
  · rw [fire_meta, tickPass_logs_eq]
    refine List.mem_filterMap.mpr ⟨(k, p), mem_of_dlookup _ _ _ hk, ?_⟩
    rw [hlog]
    rfl
  · intro k2 p2 hmem hwi
    rw [fire_meta, tickPass_invoked_eq]
    refine List.mem_filterMap.mpr ⟨(k2, p2), hmem, ?_⟩
    rw [stepEntry_invoked, hwi]
    rfl
  · rw [fire_meta]
    exact tickPass_escaped w _

/-- A world in which every object is alive and every invocation raises a
generic exception. -/
def worldGeneric : World :=
  { alive := fun _ => true,
    res := fun _ => CallResult.exn TickExn.generic,
    resolvePath := fun _ => none }

/-- A directly callable subscription payload. -/
def pDirect : Payload :=
  { args := 0, userKw := 0, startDelay := none,
    cbField := some (some (CallbackVal.fn 1)), objField := some none }

def keyB : StoreKey := { key5 with idstring := "b" }

def tickerC5 : Ticker :=
  { interval := 5, subscriptions := [(key5, pDirect), (keyB, pDirect)],
    running := true, nextCall := 5 }

/-- Witness for C5 at a concrete input. -/
theorem c5_witness :
    NodupKeys tickerC5.subscriptions ∧
    dlookup tickerC5.subscriptions key5 = some pDirect ∧
    willInvoke worldGeneric pDirect = true ∧
    worldGeneric.res key5 = CallResult.exn TickExn.generic ∧
    (dlookup (Ticker.fire worldGeneric tickerC5).1.subscriptions key5
        = some (normPayload pDirect) ∧
      willInvoke worldGeneric (normPayload pDirect) = true ∧
      (key5, false) ∈ (Ticker.fire worldGeneric tickerC5).2.logs ∧
      (∀ k2 p2, (k2, p2) ∈ tickerC5.subscriptions → willInvoke worldGeneric p2 = true →
          k2 ∈ (Ticker.fire worldGeneric tickerC5).2.invoked) ∧
      (Ticker.fire worldGeneric tickerC5).2.escaped = false) :=
  ⟨by decide, by decide, by decide, by decide,
   c5_fault_isolation worldGeneric tickerC5 key5 pDirect
     (by decide) (by decide) (by decide) (by decide)⟩

/-! ## C6: self-heal on dead target -/

/-- **C6.** Self-healing: a subscription addressed by entity + method
name whose entity no longer persists at firing time is (1) marked for
removal, (2) gone from the ticker's subscription mapping after the full
iteration, (3) never invoked, (4) not logged (not treated as an error),
while (5) every subscriber of the same firing that reaches an
invocation is still invoked, and (6) afterwards the key is absent from
`TickerHandler.all(interval)`. -/
theorem c6_dead_target_self_heal (w : World) (h : TickerHandler) (i : Int)
    (t : Ticker) (k : StoreKey) (p : Payload) (s : String) (o : Nat)
    (ht : dlookup h.ticker_pool.tickers i = some t)
    (hnd : NodupKeys t.subscriptions)
    (hk : dlookup t.subscriptions k = some p)
    (hcb : cbUsed p = some (CallbackVal.name s))
    (ho : objUsed p = some o)
    (hdead : w.alive o = false) :
    k ∈ (Ticker.fire w t).2.removed ∧
    dlookup (Ticker.fire w t).1.subscriptions k = none ∧
    k ∉ (Ticker.fire w t).2.invoked ∧
    (∀ b, (k, b) ∉ (Ticker.fire w t).2.logs) ∧
    (∀ k2 p2, (k2, p2) ∈ t.subscriptions → willInvoke w p2 = true →
        k2 ∈ (Ticker.fire w t).2.invoked) ∧
    k ∉ allSubsKeys (fireAt w h i) i := by
  obtain ⟨hrem, hninv, hnolog⟩ := stepEntry_dead w k p s o hcb ho hdead
  have hmem : (k, p) ∈ t.subscriptions := mem_of_dlookup _ _ _ hk
  have hkrem : k ∈ (tickPass w t.subscriptions).2.removed := by
    rw [tickPass_removed_eq]
    refine List.mem_filterMap.mpr ⟨(k, p), hmem, ?_⟩
    rw [hrem]
    rfl
  have hndp : NodupKeys (tickPass w t.subscriptions).1 := by
    unfold NodupKeys
    rw [tickPass_keys]
    exact hnd
  have hgone : dlookup (Ticker.fire w t).1.subscriptions k = none := by
    rw [fire_subscriptions]
    exact dlookup_foldl_derase_mem _ _ _ hndp hkrem
  refine ⟨?_, hgone, ?_, ?_, ?_, ?_⟩
  · rw [fire_meta]
    exact hkrem
  · rw [fire_meta, tickPass_invoked_eq]
    intro hmem2
    obtain ⟨kv, hkv, heq⟩ := List.mem_filterMap.mp hmem2
    by_cases hflag : (stepEntry w kv.1 kv.2).invoked
    · rw [if_pos hflag] at heq
      obtain ⟨k2, p2⟩ := kv
      obtain heq2 : k2 = k := by injection heq
      subst heq2
      have hl2 := dlookup_of_mem_nodup _ _ _ hnd hkv
      rw [hk] at hl2
      obtain hp2 : p = p2 := by injection hl2
      subst hp2
      rw [hninv] at hflag
      exact Bool.false_ne_true hflag
    · rw [if_neg hflag] at heq
      exact Option.noConfusion heq
  · intro b hmem2
    rw [fire_meta, tickPass_logs_eq] at hmem2
    obtain ⟨kv, hkv, heq⟩ := List.mem_filterMap.mp hmem2
    obtain ⟨b2, hb2, hpair⟩ := Option.map_eq_some'.mp heq
    obtain ⟨k2, p2⟩ := kv
    obtain heq2 : k2 = k := by injection hpair
    subst heq2
    have hl2 := dlookup_of_mem_nodup _ _ _ hnd hkv
    rw [hk] at hl2
    obtain hp2 : p = p2 := by injection hl2
    subst hp2
    rw [hnolog] at hb2
    exact Option.noConfusion hb2
  · intro k2 p2 hmem2 hwi
    rw [fire_meta, tickPass_invoked_eq]
    refine List.mem_filterMap.mpr ⟨(k2, p2), hmem2, ?_⟩
    rw [stepEntry_invoked, hwi]
    rfl
  · simp only [allSubsKeys, fireAt, ht, TickerHandler.all, dlookup_dinsert_self]
    simp only [List.map_cons, List.map_nil, List.flatten]
    intro hmem2
    rw [List.append_nil] at hmem2
    exact (dlookup_eq_none_iff _ _).mp hgone hmem2

/-- A world in which object 9 has been deleted. -/
def worldDead : World :=
  { alive := fun o => !(o == 9),
    res := fun _ => CallResult.ok,
    resolvePath := fun _ => none }

/-- A method subscription payload whose backing object is the deleted
object 9. -/
def pDead : Payload :=
  { args := 0, userKw := 0, startDelay := none,
    cbField := some (some (CallbackVal.name "at_tick")), objField := some (some 9) }

def tickerC6 : Ticker :=
  { interval := 5, subscriptions := [(keyB, pDirect), (key5, pDead)],
    running := true, nextCall := 5 }

def handlerC6 : TickerHandler :=
  { ticker_storage := [(key5, SVal.pay pDead)], persisted := none,
    ticker_pool := { tickers := [(5, tickerC6)], log := [] } }

/-- Witness for C6 at a concrete input. -/
theorem c6_witness :
    dlookup handlerC6.ticker_pool.tickers 5 = some tickerC6 ∧
    NodupKeys tickerC6.subscriptions ∧
    dlookup tickerC6.subscriptions key5 = some pDead ∧
    cbUsed pDead = some (CallbackVal.name "at_tick") ∧
    objUsed pDead = some 9 ∧
    worldDead.alive 9 = false ∧
    (key5 ∈ (Ticker.fire worldDead tickerC6).2.removed ∧
      dlookup (Ticker.fire worldDead tickerC6).1.subscriptions key5 = none ∧
      key5 ∉ (Ticker.fire worldDead tickerC6).2.invoked ∧
      (∀ b, (key5, b) ∉ (Ticker.fire worldDead tickerC6).2.logs) ∧
      (∀ k2 p2, (k2, p2) ∈ tickerC6.subscriptions → willInvoke worldDead p2 = true →
          k2 ∈ (Ticker.fire worldDead tickerC6).2.invoked) ∧
      key5 ∉ allSubsKeys (fireAt worldDead handlerC6 5) 5) :=
  ⟨by decide, by decide, by decide, by decide, by decide, by decide,
   c6_dead_target_self_heal worldDead handlerC6 5 tickerC6 key5 pDead "at_tick" 9
     (by decide) (by decide) (by decide) (by decide) (by decide) (by decide)⟩

/-! ## Characterizing TickerHandler.add -/

/-- Every value in the storage dict is an actual payload (true in every
state not produced by the corrupting `clear(interval)`). -/
def AllPay (l : List (StoreKey × SVal)) : Prop :=
  ∀ kv ∈ l, ∃ p, kv.2 = SVal.pay p

/-- The state produced by a successful `TickerHandler.add`. -/
def addResult (h : TickerHandler) (i : Int) (obj : Option (Nat × Bool))
    (path : Option String) (cf : Option CallbackVal) (ids : String) (pers : Bool)
    (a u : Nat) : TickerHandler :=
  let key := store_key obj path i cf ids pers
  let p0 : Payload :=
    { args := a, userKw := u, startDelay := none, cbField := none, objField := none }
  let ds := startDelaysOf h.ticker_pool
  let st1 := dinsert h.ticker_storage key (SVal.pay p0)
  let st2 := st1.map (fun kv => (kv.1, saveVal ds kv.1 kv.2))
  let p1 := { p0 with startDelay := some (dlookup ds (pyOfMethodname key.methodname)) }
  let p2 := { p1 with objField := some (obj.map Prod.fst), cbField := some cf }
  { ticker_storage := dinsert st2 key (SVal.pay p2),
    persisted := some st2,
    ticker_pool := TickerPool.add h.ticker_pool key p2 }

theorem isEmpty_dinsert {α β : Type} [DecidableEq α] (l : List (α × β)) (a : α) (b : β) :
    (dinsert l a b).isEmpty = false := by
  cases l with
  | nil => rfl
  | cons kv t =>
      obtain ⟨k, v⟩ := kv
      by_cases hk : k = a <;> simp [dinsert, hk]

theorem keys_dinsert_mem {α β : Type} [DecidableEq α] (l : List (α × β)) (a : α) (b : β)
    (h : (dlookup l a).isSome) : (dinsert l a b).map Prod.fst = l.map Prod.fst := by
  induction l with
  | nil => simp [dlookup] at h
  | cons kv t ih =>
      obtain ⟨k, v⟩ := kv
      by_cases hk : k = a
      · simp [dinsert, hk]
      · simp [dlookup, hk] at h
        simp [dinsert, hk, ih h]

theorem keys_dinsert_none {α β : Type} [DecidableEq α] (l : List (α × β)) (a : α) (b : β)
    (h : dlookup l a = none) : (dinsert l a b).map Prod.fst = l.map Prod.fst ++ [a] := by
  induction l with
  | nil => rfl
  | cons kv t ih =>
      obtain ⟨k, v⟩ := kv
      by_cases hk : k = a
      · simp [dlookup, hk] at h
      · simp [dlookup, hk] at h
        simp [dinsert, hk, ih h]

theorem nodupKeys_dinsert {α β : Type} [DecidableEq α] (l : List (α × β)) (a : α) (b : β)
    (hnd : NodupKeys l) : NodupKeys (dinsert l a b) := by
  unfold NodupKeys at hnd ⊢
  rcases hs : dlookup l a with _ | v
  · rw [keys_dinsert_none l a b hs]
    have hnm : a ∉ l.map Prod.fst := (dlookup_eq_none_iff l a).mp hs
    simp [List.nodup_append, hnd, hnm]
  · rw [keys_dinsert_mem l a b (by rw [hs]; rfl)]
    exact hnd

theorem length_dinsert_mem {α β : Type} [DecidableEq α] (l : List (α × β)) (a : α) (b : β)
    (h : (dlookup l a).isSome) : (dinsert l a b).length = l.length := by
  have := keys_dinsert_mem l a b h
  have h1 : ((dinsert l a b).map Prod.fst).length = (l.map Prod.fst).length := by rw [this]
  simpa using h1

theorem keys_map_val {α β γ : Type} (l : List (α × β)) (f : α → β → γ) :
    (l.map (fun kv => (kv.1, f kv.1 kv.2))).map Prod.fst = l.map Prod.fst := by
  induction l with
  | nil => rfl
  | cons kv t ih => simp [ih]

theorem dlookup_map_val {α β γ : Type} [DecidableEq α] (l : List (α × β)) (f : α → β → γ)
    (a : α) : dlookup (l.map (fun kv => (kv.1, f kv.1 kv.2))) a
      = (dlookup l a).map (f a) := by
  induction l with
  | nil => rfl
  | cons kv t ih =>
      obtain ⟨k, v⟩ := kv
      by_cases hk : k = a
      · subst hk
        simp [dlookup]
      · simp [dlookup, hk, ih]

theorem countKey_eq_one_of_nodup_lookup {α β : Type} [DecidableEq α]
    (l : List (α × β)) (a : α) (hnd : NodupKeys l) (h : (dlookup l a).isSome) :
    countKey l a = 1 := by
  induction l with
  | nil => simp [dlookup] at h
  | cons kv t ih =>
      obtain ⟨k, v⟩ := kv
      simp only [NodupKeys, List.map_cons, List.nodup_cons] at hnd
      by_cases hk : k = a
      · subst hk
        have hz : countKey t k = 0 :=
          countKey_eq_zero_of_dlookup_none t k ((dlookup_eq_none_iff t k).mpr hnd.1)
        simp [countKey] at hz ⊢
        exact hz
      · simp [dlookup, hk] at h
        simp [countKey, hk] at ih ⊢
        exact ih hnd.2 h

theorem allPay_dinsert (l : List (StoreKey × SVal)) (a : StoreKey) (p : Payload)
    (hap : AllPay l) : AllPay (dinsert l a (SVal.pay p)) := by
  induction l with
  | nil =>
      intro kv hkv
      simp [dinsert] at hkv
      subst hkv
      exact ⟨p, rfl⟩
  | cons kv0 t ih =>
      obtain ⟨k, v⟩ := kv0
      have hap2 : AllPay t := fun kv hm => hap kv (List.mem_cons_of_mem _ hm)
      by_cases hk : k = a
      · intro kv hkv
        simp only [dinsert, if_pos hk] at hkv
        rcases List.mem_cons.mp hkv with heq | hm
        · subst heq
          exact ⟨p, rfl⟩
        · exact hap2 kv hm
      · intro kv hkv
        simp only [dinsert, if_neg hk] at hkv
        rcases List.mem_cons.mp hkv with heq | hm
        · subst heq
          exact hap (k, v) (List.mem_cons_self _ _)
        · exact ih hap2 kv hm

theorem allPay_map_saveVal (l : List (StoreKey × SVal)) (ds : List (PyVal × Int))
    (hap : AllPay l) : AllPay (l.map (fun kv => (kv.1, saveVal ds kv.1 kv.2))) := by
  intro kv hkv
  obtain ⟨kv0, hkv0, heq⟩ := List.mem_map.mp hkv
  obtain ⟨p, hp⟩ := hap kv0 hkv0
  subst heq
  rw [hp]
  exact ⟨_, rfl⟩

theorem saveValues_eq_of_allPay (ds : List (PyVal × Int)) (l : List (StoreKey × SVal))
    (hap : AllPay l) :
    saveValues ds l = Except.ok (l.map (fun kv => (kv.1, saveVal ds kv.1 kv.2))) := by
  induction l with
  | nil => rfl
  | cons kv t ih =>
      obtain ⟨k, v⟩ := kv
      obtain ⟨p, hp⟩ := hap (k, v) (List.mem_cons_self _ _)
      simp only at hp
      subst hp
      have hap2 : AllPay t := fun kv hm => hap kv (List.mem_cons_of_mem _ hm)
      simp [saveValues, ih hap2, saveVal, Except.map]

theorem save_ok_of_allPay (h : TickerHandler) (hne : h.ticker_storage.isEmpty = false)
    (hap : AllPay h.ticker_storage) :
    TickerHandler.save h = Except.ok
      { h with
        ticker_storage := h.ticker_storage.map
          (fun kv => (kv.1, saveVal (startDelaysOf h.ticker_pool) kv.1 kv.2)),
        persisted := some (h.ticker_storage.map
          (fun kv => (kv.1, saveVal (startDelaysOf h.ticker_pool) kv.1 kv.2))) } := by
  unfold TickerHandler.save
  rw [hne]
  simp only [Bool.false_eq_true, if_false]
  rw [saveValues_eq_of_allPay _ _ hap]

theorem add_ok (h : TickerHandler) (i : Int) (cb : Callback) (ids : String) (pers : Bool)
    (a u : Nat) (obj : Option (Nat × Bool)) (path : Option String) (cf : Option CallbackVal)
    (hok : getCallback cb = Except.ok (obj, path, cf)) (hap : AllPay h.ticker_storage) :
    TickerHandler.add h i cb ids pers a u
      = Except.ok (addResult h i obj path cf ids pers a u) := by
  unfold TickerHandler.add
  rw [hok]
  have hap1 : AllPay (dinsert h.ticker_storage (store_key obj path i cf ids pers)
      (SVal.pay { args := a, userKw := u, startDelay := none,
                  cbField := none, objField := none })) :=
    allPay_dinsert _ _ _ hap
  dsimp only
  rw [save_ok_of_allPay _ (isEmpty_dinsert _ _ _) hap1]
  rfl

theorem addResult_storage_allPay (h : TickerHandler) (i : Int) (obj : Option (Nat × Bool))
    (path : Option String) (cf : Option CallbackVal) (ids : String) (pers : Bool)
    (a u : Nat) (hap : AllPay h.ticker_storage) :
    AllPay (addResult h i obj path cf ids pers a u).ticker_storage :=
  allPay_dinsert _ _ _ (allPay_map_saveVal _ _ (allPay_dinsert _ _ _ hap))

theorem addResult_storage_nodup (h : TickerHandler) (i : Int) (obj : Option (Nat × Bool))
    (path : Option String) (cf : Option CallbackVal) (ids : String) (pers : Bool)
    (a u : Nat) (hnd : NodupKeys h.ticker_storage) :
    NodupKeys (addResult h i obj path cf ids pers a u).ticker_storage := by
  refine nodupKeys_dinsert _ _ _ ?_
  unfold NodupKeys
  rw [keys_map_val]
  exact nodupKeys_dinsert _ _ _ hnd

/-! ## Subscription counting through the pool -/

/-- The total number of pool subscriptions. -/
def sumLen (pl : TickerPool) : Nat :=
  (pl.tickers.map (fun it => it.2.subscriptions.length)).sum

theorem allCount_eq_sumLen (h : TickerHandler) : allCount h = sumLen h.ticker_pool := by
  simp only [allCount, TickerHandler.all, sumLen, List.map_map]
  rfl

theorem sumLen_dinsert_replace (ts : List (Int × Ticker)) (i : Int) (t t2 : Ticker)
    (hs : dlookup ts i = some t)
    (hlen : t2.subscriptions.length = t.subscriptions.length) :
    ((dinsert ts i t2).map (fun it => it.2.subscriptions.length)).sum
      = (ts.map (fun it => it.2.subscriptions.length)).sum := by
  induction ts with
  | nil => simp [dlookup] at hs
  | cons kv rest ih =>
      obtain ⟨j, u⟩ := kv
      by_cases hj : j = i
      · subst hj
        simp [dlookup] at hs
        subst hs
        simp [dinsert, hlen]
      · simp [dlookup, hj] at hs
        simp [dinsert, hj, ih hs]

theorem validate_length (t : Ticker) :
    (Ticker.validate t).subscriptions.length = t.subscriptions.length := by
  rw [validate_subscriptions]

theorem poolAdd_lookup_sub (pl : TickerPool) (k : StoreKey) (p : Payload)
    (hi : k.interval ≠ 0) :
    ∃ t, dlookup (TickerPool.add pl k p).tickers k.interval = some t ∧
      (dlookup t.subscriptions k).isSome := by
  unfold TickerPool.add
  rw [if_neg hi]
  rcases hs : dlookup pl.tickers k.interval with _ | t0
  · refine ⟨Ticker.add (newTicker k.interval) k p, ?_, ?_⟩
    · simp [dlookup_dinsert_self]
    · simp [Ticker.add, validate_subscriptions, dlookup_dinsert_self]
  · refine ⟨Ticker.add t0 k p, ?_, ?_⟩
    · simp [dlookup_dinsert_self]
    · simp [Ticker.add, validate_subscriptions, dlookup_dinsert_self]

theorem sumLen_poolAdd_poolAdd (pl : TickerPool) (k : StoreKey) (pa pb : Payload) :
    sumLen (TickerPool.add (TickerPool.add pl k pa) k pb)
      = sumLen (TickerPool.add pl k pa) := by
  by_cases hi : k.interval = 0
  · conv_lhs => rw [TickerPool.add]
    rw [if_pos hi]
    rfl
  · obtain ⟨t1, ht1, hsub⟩ := poolAdd_lookup_sub pl k pa hi
    conv_lhs => rw [TickerPool.add]
    rw [if_neg hi, ht1]
    unfold sumLen
    refine sumLen_dinsert_replace _ _ t1 _ ht1 ?_
    rw [Ticker.add, validate_subscriptions]
    exact length_dinsert_mem _ _ _ hsub

theorem addResult_lookup (h : TickerHandler) (i : Int) (obj : Option (Nat × Bool))
    (path : Option String) (cf : Option CallbackVal) (ids : String) (pers : Bool)
    (a u : Nat) :
    dlookup (addResult h i obj path cf ids pers a u).ticker_storage
        (store_key obj path i cf ids pers)
      = some (SVal.pay
          { args := a, userKw := u,
            startDelay := some (dlookup (startDelaysOf h.ticker_pool)
              (pyOfMethodname (store_key obj path i cf ids pers).methodname)),
            cbField := some cf, objField := some (obj.map Prod.fst) }) := by
  unfold addResult
  dsimp only
  exact dlookup_dinsert_self _ _ _

/-- **C7.** `add` is an idempotent upsert by identity: from any
well-formed registry state, two `add` calls with the same callback
classification, interval, idstring and persistent flag (but possibly
different args/kwargs) both succeed, leave exactly one storage entry
under that identity — holding the second call's payload — and the total
subscription count reported by `all()` is unchanged between the first
and second call. -/
theorem c7_add_upsert_idempotent (h : TickerHandler) (i : Int) (cb : Callback)
    (ids : String) (pers : Bool) (a1 u1 a2 u2 : Nat)
    (obj : Option (Nat × Bool)) (path : Option String) (cf : Option CallbackVal)
    (hok : getCallback cb = Except.ok (obj, path, cf))
    (hnd : NodupKeys h.ticker_storage) (hap : AllPay h.ticker_storage) :
    ∃ h1 h2,
      TickerHandler.add h i cb ids pers a1 u1 = Except.ok h1 ∧
      TickerHandler.add h1 i cb ids pers a2 u2 = Except.ok h2 ∧
      countKey h2.ticker_storage (store_key obj path i cf ids pers) = 1 ∧
      (∃ q, dlookup h2.ticker_storage (store_key obj path i cf ids pers)
          = some (SVal.pay q) ∧ q.args = a2 ∧ q.userKw = u2) ∧
      allCount h2 = allCount h1 := by
  have hap1 : AllPay (addResult h i obj path cf ids pers a1 u1).ticker_storage :=
    addResult_storage_allPay h i obj path cf ids pers a1 u1 hap
  have hnd1 : NodupKeys (addResult h i obj path cf ids pers a1 u1).ticker_storage :=
    addResult_storage_nodup h i obj path cf ids pers a1 u1 hnd
  refine ⟨addResult h i obj path cf ids pers a1 u1,
    addResult (addResult h i obj path cf ids pers a1 u1) i obj path cf ids pers a2 u2,
    add_ok h i cb ids pers a1 u1 obj path cf hok hap,
    add_ok _ i cb ids pers a2 u2 obj path cf hok hap1, ?_, ?_, ?_⟩
  · refine countKey_eq_one_of_nodup_lookup _ _
      (addResult_storage_nodup _ i obj path cf ids pers a2 u2 hnd1) ?_
    rw [addResult_lookup]
    rfl
  · exact ⟨_, addResult_lookup _ i obj path cf ids pers a2 u2, rfl, rfl⟩
  · rw [allCount_eq_sumLen, allCount_eq_sumLen]
    exact sumLen_poolAdd_poolAdd h.ticker_pool (store_key obj path i cf ids pers) _ _

def handlerEmpty : TickerHandler :=
  { ticker_storage := [], persisted := none, ticker_pool := emptyPool }

/-- Witness for C7 at a concrete input. -/
theorem c7_witness :
    getCallback (Callback.fn "m" "f" 2)
      = Except.ok (none, some "m.f", some (CallbackVal.fn 2)) ∧
    NodupKeys handlerEmpty.ticker_storage ∧
    (∃ h1 h2,
      TickerHandler.add handlerEmpty 10 (Callback.fn "m" "f" 2) "" true 1 1
        = Except.ok h1 ∧
      TickerHandler.add h1 10 (Callback.fn "m" "f" 2) "" true 2 2 = Except.ok h2 ∧
      countKey h2.ticker_storage
        (store_key none (some "m.f") 10 (some (CallbackVal.fn 2)) "" true) = 1 ∧
      (∃ q, dlookup h2.ticker_storage
          (store_key none (some "m.f") 10 (some (CallbackVal.fn 2)) "" true)
          = some (SVal.pay q) ∧ q.args = 2 ∧ q.userKw = 2) ∧
      allCount h2 = allCount h1) :=
  ⟨by decide, by decide,
   c7_add_upsert_idempotent handlerEmpty 10 (Callback.fn "m" "f" 2) "" true 1 1 2 2
     none (some "m.f") (some (CallbackVal.fn 2)) (by decide) (by decide)
     (fun kv hkv => absurd hkv (List.not_mem_nil kv))⟩

/-! ## Pool membership -/

/-- Whether some ticker in the pool holds a subscription under `k`. -/
def poolHasKey (pl : TickerPool) (k : StoreKey) : Bool :=
  pl.tickers.any (fun it => (dlookup it.2.subscriptions k).isSome)

theorem dinsert_eq_append {α β : Type} [DecidableEq α] (l : List (α × β)) (a : α) (b : β)
    (h : dlookup l a = none) : dinsert l a b = l ++ [(a, b)] := by
  induction l with
  | nil => rfl
  | cons kv t ih =>
      obtain ⟨k, v⟩ := kv
      by_cases hk : k = a
      · simp [dlookup, hk] at h
      · simp [dlookup, hk] at h
        simp [dinsert, hk, ih h]

theorem any_dinsert_replace {α β : Type} [DecidableEq α] (l : List (α × β)) (a : α)
    (b b2 : β) (f : α × β → Bool) (hs : dlookup l a = some b) (hf : f (a, b2) = f (a, b)) :
    (dinsert l a b2).any f = l.any f := by
  induction l with
  | nil => simp [dlookup] at hs
  | cons kv t ih =>
      obtain ⟨k, v⟩ := kv
      by_cases hk : k = a
      · subst hk
        simp [dlookup] at hs
        subst hs
        simp [dinsert, hf]
      · simp [dlookup, hk] at hs
        simp [dinsert, hk, ih hs]

theorem tickerAdd_subs_lookup_self (t : Ticker) (k : StoreKey) (p : Payload) :
    dlookup (Ticker.add t k p).subscriptions k = some { p with startDelay := none } := by
  rw [Ticker.add, validate_subscriptions]
  exact dlookup_dinsert_self _ _ _

theorem tickerAdd_subs_lookup_ne (t : Ticker) (k k2 : StoreKey) (p : Payload)
    (hne : k2 ≠ k) :
    dlookup (Ticker.add t k p).subscriptions k2 = dlookup t.subscriptions k2 := by
  rw [Ticker.add, validate_subscriptions]
  exact dlookup_dinsert_ne _ _ _ _ hne

theorem poolHasKey_add_self (pl : TickerPool) (k : StoreKey) (p : Payload)
    (hi : k.interval ≠ 0) : poolHasKey (TickerPool.add pl k p) k = true := by
  obtain ⟨t, ht, hsub⟩ := poolAdd_lookup_sub pl k p hi
  unfold poolHasKey
  rw [List.any_eq_true]
  exact ⟨(k.interval, t), mem_of_dlookup _ _ _ ht, hsub⟩

theorem poolHasKey_add_other (pl : TickerPool) (k k2 : StoreKey) (p : Payload)
    (hne : k2 ≠ k) : poolHasKey (TickerPool.add pl k p) k2 = poolHasKey pl k2 := by
  unfold TickerPool.add
  by_cases hi : k.interval = 0
  · rw [if_pos hi]
    rfl
  · rw [if_neg hi]
    rcases hs : dlookup pl.tickers k.interval with _ | t0
    · unfold poolHasKey
      rw [dinsert_eq_append _ _ _ hs, List.any_append]
      have hnew : (dlookup (Ticker.add (newTicker k.interval) k p).subscriptions k2).isSome
          = false := by
        rw [tickerAdd_subs_lookup_ne _ _ _ _ hne]
        rfl
      simp [hnew]
    · unfold poolHasKey
      refine any_dinsert_replace _ _ t0 _ _ hs ?_
      simp only
      rw [tickerAdd_subs_lookup_ne _ _ _ _ hne]

/-! ## C8: cold-restart durability filter -/

/-- A fresh handler whose persisted record holds exactly the two given
entries, in order. -/
def mkRestoreState (k1 : StoreKey) (p1 : Payload) (k2 : StoreKey) (p2 : Payload) :
    TickerHandler :=
  { ticker_storage := [],
    persisted := some [(k1, SVal.pay p1), (k2, SVal.pay p2)],
    ticker_pool := emptyPool }

/-- **C8.** Cold-restart durability: from a persisted table holding one
durable entry `k1` and one non-durable entry `k2`, both resolvable,
`restore(False)` rebuilds the registry with exactly the durable entry
and forwards only it to the pool, while `restore(True)` rebuilds both
and forwards both. -/
theorem c8_restore_durability_filter (w : World) (k1 k2 : StoreKey)
    (p1 p2 q1 q2 : Payload)
    (hp1 : k1.persistent = true) (hp2 : k2.persistent = false)
    (hr1 : restoreEntry w k1 p1 = some q1) (hr2 : restoreEntry w k2 p2 = some q2)
    (hne : k1 ≠ k2) (hi1 : k1.interval ≠ 0) (hi2 : k2.interval ≠ 0) :
    (∃ hF, TickerHandler.restore w (mkRestoreState k1 p1 k2 p2) false = Except.ok hF ∧
      hF.ticker_storage = [(k1, SVal.pay q1)] ∧
      poolHasKey hF.ticker_pool k1 = true ∧ poolHasKey hF.ticker_pool k2 = false) ∧
    (∃ hT, TickerHandler.restore w (mkRestoreState k1 p1 k2 p2) true = Except.ok hT ∧
      hT.ticker_storage = [(k1, SVal.pay q1), (k2, SVal.pay q2)] ∧
      poolHasKey hT.ticker_pool k1 = true ∧ poolHasKey hT.ticker_pool k2 = true) := by
  have hne2 : k2 ≠ k1 := Ne.symm hne
  have hloopF : restoreLoop w false [(k1, SVal.pay p1), (k2, SVal.pay p2)] [] false emptyPool
      = Except.ok ([(k1, SVal.pay q1)], true, TickerPool.add emptyPool k1 q1) := by
    simp [restoreLoop, hp1, hp2, hr1, dinsert]
  have hloopT : restoreLoop w true [(k1, SVal.pay p1), (k2, SVal.pay p2)] [] false emptyPool
      = Except.ok ([(k1, SVal.pay q1), (k2, SVal.pay q2)], true,
          TickerPool.add (TickerPool.add emptyPool k1 q1) k2 q2) := by
    simp [restoreLoop, hp1, hp2, hr1, hr2, dinsert, hne2, hne]
  constructor
  · refine ⟨{ ticker_storage := [(k1, SVal.pay q1)],
              persisted := some [(k1, SVal.pay p1), (k2, SVal.pay p2)],
              ticker_pool := TickerPool.add emptyPool k1 q1 }, ?_, rfl, ?_, ?_⟩
    · unfold TickerHandler.restore mkRestoreState
      dsimp only
      rw [hloopF]
      rfl
    · exact poolHasKey_add_self emptyPool k1 q1 hi1
    · rw [poolHasKey_add_other emptyPool k1 k2 q1 hne2]
      rfl
  · refine ⟨{ ticker_storage := [(k1, SVal.pay q1), (k2, SVal.pay q2)],
              persisted := some [(k1, SVal.pay p1), (k2, SVal.pay p2)],
              ticker_pool := TickerPool.add (TickerPool.add emptyPool k1 q1) k2 q2 },
        ?_, rfl, ?_, ?_⟩
    · unfold TickerHandler.restore mkRestoreState
      dsimp only
      rw [hloopT]
      rfl
    · rw [poolHasKey_add_other _ k2 k1 q2 hne]
      exact poolHasKey_add_self emptyPool k1 q1 hi1
    · exact poolHasKey_add_self _ k2 q2 hi2

/-- A world whose imports all resolve to the callable token 3. -/
def worldResolve : World :=
  { alive := fun _ => true, res := fun _ => CallResult.ok,
    resolvePath := fun _ => some 3 }

def keyPath : StoreKey :=
  { obj := none, methodname := none, path := some "m.f",
    interval := 10, idstring := "", persistent := false }

def q1C8 : Payload :=
  { payload0 with cbField := some (some (CallbackVal.name "at_tick")),
                  objField := some (some 1) }

def q2C8 : Payload :=
  { payload0 with cbField := some (some (CallbackVal.fn 3)), objField := some none }

/-- Witness for C8 at a concrete input. -/
theorem c8_witness :
    key15.persistent = true ∧
    keyPath.persistent = false ∧
    restoreEntry worldResolve key15 payload0 = some q1C8 ∧
    restoreEntry worldResolve keyPath payload0 = some q2C8 ∧
    key15 ≠ keyPath ∧
    ((∃ hF, TickerHandler.restore worldResolve (mkRestoreState key15 payload0 keyPath payload0)
          false = Except.ok hF ∧
        hF.ticker_storage = [(key15, SVal.pay q1C8)] ∧
        poolHasKey hF.ticker_pool key15 = true ∧ poolHasKey hF.ticker_pool keyPath = false) ∧
      (∃ hT, TickerHandler.restore worldResolve (mkRestoreState key15 payload0 keyPath payload0)
          true = Except.ok hT ∧
        hT.ticker_storage = [(key15, SVal.pay q1C8), (keyPath, SVal.pay q2C8)] ∧
        poolHasKey hT.ticker_pool key15 = true ∧ poolHasKey hT.ticker_pool keyPath = true)) :=
  ⟨by decide, by decide, by decide, by decide, by decide,
   c8_restore_durability_filter worldResolve key15 keyPath payload0 payload0 q1C8 q2C8
     (by decide) (by decide) (by decide) (by decide) (by decide) (by decide) (by decide)⟩

/-- The payload (with injected `_start_delay`, `_obj`, `_callback`)
that `TickerHandler.add` forwards to the pool. -/
def addPayload (h : TickerHandler) (i : Int) (obj : Option (Nat × Bool))
    (path : Option String) (cf : Option CallbackVal) (ids : String) (pers : Bool)
    (a u : Nat) : Payload :=
  { args := a, userKw := u,
    startDelay := some (dlookup (startDelaysOf h.ticker_pool)
      (pyOfMethodname (store_key obj path i cf ids pers).methodname)),
    cbField := some cf, objField := some (obj.map Prod.fst) }

theorem poolAdd_zero_bounce (pl : TickerPool) (k : StoreKey) (p : Payload)
    (hi : k.interval = 0) :
    (TickerPool.add pl k p).tickers = pl.tickers ∧
      (TickerPool.add pl k p).log = pl.log ++ [LogEvent.errAddTicker k] := by
  rw [TickerPool.add, if_pos hi]
  exact ⟨rfl, rfl⟩

theorem poolAdd_lookup_isSome (pl : TickerPool) (k : StoreKey) (p : Payload)
    (hi : k.interval ≠ 0) :
    (dlookup (TickerPool.add pl k p).tickers k.interval).isSome = true := by
  obtain ⟨t, ht, _⟩ := poolAdd_lookup_sub pl k p hi
  rw [ht]
  rfl

/-! ## C9: configuration-error handling -/

def cb9 : Callback := Callback.fn "mymod" "myfunc" 3

/-- **C9 (counterexample).** The claim "an `add` with `interval <= 0` or
an unclassifiable callback is rejected at the registry boundary as a
complete no-op (registry table, persisted record and pool all
unchanged) with no exception" is false on the code: at interval 0 with
a valid function callback, `add` succeeds and the registry table gains
the entry (length 0 -> 1) and the persisted record is written — only
the pool rejects; and a non-callable callback raises `TypeError` to the
caller instead of being a logged no-op. -/
theorem c9_claim_false :
    (match TickerHandler.add handlerEmpty 0 cb9 "" true 0 0 with
     | Except.ok h1 => h1.ticker_storage.length
     | Except.error _ => 0) = 1 ∧
    (match TickerHandler.add handlerEmpty 0 cb9 "" true 0 0 with
     | Except.ok h1 => h1.persisted.isSome
     | Except.error _ => false) = true ∧
    TickerHandler.add handlerEmpty 5 Callback.notCallable "" true 0 0
      = Except.error PyExn.typeError := by
  decide

/-- **C9 (amended).** What the code actually does: (1) an `add` whose
interval is 0 (with a classifiable callback) succeeds with no
exception; the POOL rejects it — tickers unchanged, `log_err` recorded —
but the registry table still gains the entry and the table is
persisted; (2) a non-zero (hence also negative) interval is not
rejected anywhere: the pool creates a ticker for it; (3) a non-callable
callback raises `TypeError` to the caller. -/
theorem c9_rejection_amended (h : TickerHandler) (cb : Callback) (ids : String)
    (pers : Bool) (a u : Nat) (i : Int)
    (obj : Option (Nat × Bool)) (path : Option String) (cf : Option CallbackVal)
    (hok : getCallback cb = Except.ok (obj, path, cf))
    (hap : AllPay h.ticker_storage) :
    (∃ h1, TickerHandler.add h 0 cb ids pers a u = Except.ok h1 ∧
       h1.ticker_pool.tickers = h.ticker_pool.tickers ∧
       h1.ticker_pool.log = h.ticker_pool.log
         ++ [LogEvent.errAddTicker (store_key obj path 0 cf ids pers)] ∧
       (dlookup h1.ticker_storage (store_key obj path 0 cf ids pers)).isSome = true ∧
       h1.persisted.isSome = true) ∧
    (i ≠ 0 → ∃ h2, TickerHandler.add h i cb ids pers a u = Except.ok h2 ∧
       (dlookup h2.ticker_pool.tickers i).isSome = true) ∧
    TickerHandler.add h i Callback.notCallable ids pers a u
      = Except.error PyExn.typeError := by
  refine ⟨⟨addResult h 0 obj path cf ids pers a u,
      add_ok h 0 cb ids pers a u obj path cf hok hap, ?_, ?_, ?_, rfl⟩, ?_, rfl⟩
  · exact (poolAdd_zero_bounce h.ticker_pool (store_key obj path 0 cf ids pers)
      (addPayload h 0 obj path cf ids pers a u) rfl).1
  · exact (poolAdd_zero_bounce h.ticker_pool (store_key obj path 0 cf ids pers)
      (addPayload h 0 obj path cf ids pers a u) rfl).2
  · rw [addResult_lookup]
    rfl
  · intro hi
    exact ⟨addResult h i obj path cf ids pers a u,
        add_ok h i cb ids pers a u obj path cf hok hap,
        poolAdd_lookup_isSome h.ticker_pool (store_key obj path i cf ids pers)
          (addPayload h i obj path cf ids pers a u) hi⟩

/-- Witness for C9's amended statement at a concrete input
(interval `-3` for the non-rejection part). -/
theorem c9_amended_witness :
    getCallback cb9 = Except.ok (none, some "mymod.myfunc", some (CallbackVal.fn 3)) ∧
    ((∃ h1, TickerHandler.add handlerEmpty 0 cb9 "" true 0 0 = Except.ok h1 ∧
       h1.ticker_pool.tickers = handlerEmpty.ticker_pool.tickers ∧
       h1.ticker_pool.log = handlerEmpty.ticker_pool.log
         ++ [LogEvent.errAddTicker
              (store_key none (some "mymod.myfunc") 0 (some (CallbackVal.fn 3)) "" true)] ∧
       (dlookup h1.ticker_storage
          (store_key none (some "mymod.myfunc") 0 (some (CallbackVal.fn 3)) "" true)).isSome
          = true ∧
       h1.persisted.isSome = true) ∧
     ((-3 : Int) ≠ 0 → ∃ h2,
        TickerHandler.add handlerEmpty (-3) cb9 "" true 0 0 = Except.ok h2 ∧
        (dlookup h2.ticker_pool.tickers (-3)).isSome = true) ∧
     TickerHandler.add handlerEmpty (-3) Callback.notCallable "" true 0 0
       = Except.error PyExn.typeError) :=
  ⟨by decide,
   c9_rejection_amended handlerEmpty cb9 "" true 0 0 (-3)
     none (some "mymod.myfunc") (some (CallbackVal.fn 3)) (by decide)
     (fun kv hkv => absurd hkv (List.not_mem_nil kv))⟩

/-! ## C10: non-durable subscriptions cannot be removed -/

/-- **C10.** A subscription added with `persistent=False` cannot be
unsubscribed through `remove`: `remove` rebuilds the store key with
`persistent` at its default `True`, which does not match the stored
key, so (when no separate `persistent=True` twin exists) `remove`
returns with the state completely unchanged, and the non-durable entry
stays in the registry table and in the pool. -/
theorem c10_remove_nondurable_noop (h : TickerHandler) (i : Int) (cb : Callback)
    (ids : String) (a u : Nat)
    (obj : Option (Nat × Bool)) (path : Option String) (cf : Option CallbackVal)
    (hok : getCallback cb = Except.ok (obj, path, cf))
    (hap : AllPay h.ticker_storage)
    (hi : i ≠ 0)
    (htrue : dlookup h.ticker_storage (store_key obj path i cf ids true) = none) :
    ∃ h1, TickerHandler.add h i cb ids false a u = Except.ok h1 ∧
      TickerHandler.remove h1 i cb ids = Except.ok h1 ∧
      (dlookup h1.ticker_storage (store_key obj path i cf ids false)).isSome = true ∧
      poolHasKey h1.ticker_pool (store_key obj path i cf ids false) = true := by
  have hkne : store_key obj path i cf ids true ≠ store_key obj path i cf ids false := by
    intro heq
    have hp := congrArg StoreKey.persistent heq
    simp [store_key] at hp
  refine ⟨addResult h i obj path cf ids false a u,
      add_ok h i cb ids false a u obj path cf hok hap, ?_, ?_, ?_⟩
  · unfold TickerHandler.remove
    rw [hok]
    dsimp only
    have hlook : dlookup (addResult h i obj path cf ids false a u).ticker_storage
        (store_key obj path i cf ids true) = none := by
      unfold addResult
      dsimp only
      rw [dlookup_dinsert_ne _ _ _ _ hkne, dlookup_map_val,
          dlookup_dinsert_ne _ _ _ _ hkne, htrue]
      rfl
    rw [hlook]
  · rw [addResult_lookup]
    rfl
  · exact poolHasKey_add_self h.ticker_pool _ _ hi

def cbMeth : Callback := Callback.method 1 true "at_tick"

/-- Witness for C10 at a concrete input. -/
theorem c10_witness :
    getCallback cbMeth
      = Except.ok (some (1, true), none, some (CallbackVal.name "at_tick")) ∧
    (15 : Int) ≠ 0 ∧
    dlookup handlerEmpty.ticker_storage
      (store_key (some (1, true)) none 15 (some (CallbackVal.name "at_tick")) "" true)
      = none ∧
    (∃ h1, TickerHandler.add handlerEmpty 15 cbMeth "" false 0 0 = Except.ok h1 ∧
      TickerHandler.remove h1 15 cbMeth "" = Except.ok h1 ∧
      (dlookup h1.ticker_storage
        (store_key (some (1, true)) none 15
          (some (CallbackVal.name "at_tick")) "" false)).isSome = true ∧
      poolHasKey h1.ticker_pool
        (store_key (some (1, true)) none 15
          (some (CallbackVal.name "at_tick")) "" false) = true) :=
  ⟨by decide, by decide, by decide,
   c10_remove_nondurable_noop handlerEmpty 15 cbMeth "" 0 0
     (some (1, true)) none (some (CallbackVal.name "at_tick")) (by decide)
     (fun kv hkv => absurd hkv (List.not_mem_nil kv)) (by decide) (by decide)⟩

end TickerSpec
